import Mathlib

/-!
Verification of the query-builder core of fhir-works-on-aws-search-es
(src/QueryBuilder/index.ts), shallowly embedded in Lean 4.

JS strings are modelled as lists of characters; the search-engine query
values produced by the module (plain objects and arrays) are modelled as an
inductive `Query` type; fallible code returns `Except`.
-/

namespace FhirWorksSearch

/-- JS strings are modelled as lists of characters. -/
abbrev Str := List Char

/-- The declared type of a search parameter
(`SearchParam.type` in the registry's data model). -/
inductive SearchParamType where
  | string
  | date
  | token
  | number
  | quantity
  | reference
  | composite
  | special
  | uri
deriving DecidableEq

/-- One compiled field descriptor of a search parameter. The core inspects
only the optional `condition` triple `(field, operator, matchValue)`
(`condition[0]` and `condition[2]` are read); the rest of the descriptor
(`path`) is opaque payload handed to the type constructors. -/
structure CompiledSearchParam where
  path : Str
  condition : Option (Str × Str × Str)
deriving DecidableEq

/-- A resolved search parameter definition as returned by the registry. -/
structure SearchParam where
  name : Str
  type : SearchParamType
  compiled : List CompiledSearchParam
deriving DecidableEq

/-- Which external type constructor produced a leaf query. -/
inductive LeafKind where
  | string
  | date
  | token
  | number
  | quantity
  | reference
deriving DecidableEq

/-- The values produced by the query builder: opaque constructor leaves, the
`multi_match` clause built for conditions, the boolean nodes
(`{bool:{must:[...]}}`, `{bool:{should:[...]}}`,
`{bool:{filter:[...], must:[...]}}`), and plain JS arrays (`arr`), which the
source code also returns as query values. -/
inductive Query where
  | leaf (kind : LeafKind) (param : CompiledSearchParam) (value : Str)
  | multiMatch (fields : List Str) (query : Str) (lenient : Bool)
  | boolMust (must : List Query)
  | boolShould (should : List Query)
  | boolFilterMust (filter : List Query) (must : List Query)
  | arr (elems : List Query)

/-- Modelled from the spec: the external string-type query constructor
(`./typeQueries/stringQuery`, not under src/). Per the spec its contract is
`(CompiledSearchParam, string value) -> Query` and its output is an opaque
leaf query; it is modelled as a leaf tagged with its constructor kind. -/
def stringQuery (csp : CompiledSearchParam) (v : Str) : Query :=
  Query.leaf LeafKind.string csp v

/-- Modelled from the spec: the external date-type query constructor
(`./typeQueries/dateQuery`, not under src/), an opaque leaf builder. -/
def dateQuery (csp : CompiledSearchParam) (v : Str) : Query :=
  Query.leaf LeafKind.date csp v

/-- Modelled from the spec: the external token-type query constructor
(`./typeQueries/tokenQuery`, not under src/), an opaque leaf builder. -/
def tokenQuery (csp : CompiledSearchParam) (v : Str) : Query :=
  Query.leaf LeafKind.token csp v

/-- Modelled from the spec: the external number-type query constructor
(`./typeQueries/numberQuery`, not under src/), an opaque leaf builder. -/
def numberQuery (csp : CompiledSearchParam) (v : Str) : Query :=
  Query.leaf LeafKind.number csp v

/-- Modelled from the spec: the external quantity-type query constructor
(`./typeQueries/quantityQuery`, not under src/), an opaque leaf builder. -/
def quantityQuery (csp : CompiledSearchParam) (v : Str) : Query :=
  Query.leaf LeafKind.quantity csp v

/-- Modelled from the spec: the external reference-type query constructor
(`./typeQueries/referenceQuery`, not under src/), an opaque leaf builder. -/
def referenceQuery (csp : CompiledSearchParam) (v : Str) : Query :=
  Query.leaf LeafKind.reference csp v

/-- The `switch (searchParam.type)` dispatch inside `typeQueryWithConditions`
(the local variable `typeQuery`): `composite`, `special`, `uri` and the
`default` branch all fall back to the string constructor. -/
def typeQuery (sp : SearchParam) (csp : CompiledSearchParam) (v : Str) : Query :=
  match sp.type with
  | SearchParamType.string => stringQuery csp v
  | SearchParamType.date => dateQuery csp v
  | SearchParamType.token => tokenQuery csp v
  | SearchParamType.number => numberQuery csp v
  | SearchParamType.quantity => quantityQuery csp v
  | SearchParamType.reference => referenceQuery csp v
  | SearchParamType.composite => stringQuery csp v
  | SearchParamType.special => stringQuery csp v
  | SearchParamType.uri => stringQuery csp v

/-- `typeQueryWithConditions` (index.ts:16-69): dispatch on the declared type,
then, when the descriptor carries a condition, wrap the constructed query
together with a `multi_match` on `[condition[0], condition[0] + ".*"]` for
`condition[2]` (lenient) in a `bool.must` node; otherwise return it bare. -/
def typeQueryWithConditions (sp : SearchParam) (csp : CompiledSearchParam) (v : Str) : Query :=
  match csp.condition with
  | some cond =>
      Query.boolMust
        [typeQuery sp csp v,
         Query.multiMatch [cond.1, cond.1 ++ (".*".toList)] cond.2.2 true]
  | none => typeQuery sp csp v

/-- The comma-splitting loop of `searchParamQuery` (index.ts:73-86), embedded
with the same in-place string mutation: at index `c`, a backslash immediately
followed by a comma is deleted from the string (so the comma is skipped as a
separator on the next iteration); an unescaped comma closes the segment
`[lastIndex, c)`; after the scan the trailing segment is pushed. -/
def splitLoop (s : Str) (c lastIndex : Nat) (acc : List Str) : List Str :=
  if h : c < s.length then
    if s.get ⟨c, h⟩ = '\\' then
      if s.get? (c + 1) = some ',' then
        splitLoop (s.take c ++ s.drop (c + 1)) (c + 1) lastIndex acc
      else
        splitLoop s (c + 1) lastIndex acc
    else if s.get ⟨c, h⟩ = ',' then
      splitLoop s (c + 1) (c + 1) (acc ++ [(s.drop lastIndex).take (c - lastIndex)])
    else
      splitLoop s (c + 1) lastIndex acc
  else
    acc ++ [s.drop lastIndex]
termination_by s.length - c
decreasing_by
  · have hlen : (s.take c ++ s.drop (c + 1)).length = c + (s.length - (c + 1)) := by
      simp [List.length_append, List.length_take, List.length_drop]
      omega
    omega
  · omega
  · omega
  · omega

/-- The value splitter: the loop started at `c = 0`, `lastIndex = 0` with an
empty accumulator (index.ts:73-86). -/
def splitSearchValue (s : Str) : List Str := splitLoop s 0 0 []

/-- A purely functional characterization of the splitting scan, used to reason
about `splitLoop` (which is defined by well-founded recursion on the mutating
loop state): it processes the remaining characters with the segment built so
far. Proven equal to `splitLoop` in `splitLoop_eq_model`. -/
def splitModel : Str → Str → List Str
  | [], seg => [seg]
  | [ch], seg => if ch = ',' then [seg, []] else [seg ++ [ch]]
  | ch :: ch2 :: rest, seg =>
    if ch = '\\' ∧ ch2 = ',' then splitModel rest (seg ++ [','])
    else if ch = ',' then seg :: splitModel (ch2 :: rest) []
    else splitModel (ch2 :: rest) (seg ++ [ch])

/-- Single-level unescaping as described by the spec: each backslash
immediately preceding a comma is removed (the comma is kept literally); every
other character, including a backslash not followed by a comma, is copied. -/
def unescapeValue : Str → Str
  | [] => []
  | [ch] => [ch]
  | ch :: ch2 :: rest =>
    if ch = '\\' ∧ ch2 = ',' then ',' :: unescapeValue rest
    else ch :: unescapeValue (ch2 :: rest)

/-- `true` iff the string contains no unescaped comma (a comma not consumed as
part of a backslash-comma escape pair). -/
def noUnescapedComma : Str → Bool
  | [] => true
  | [ch] => ch != ','
  | ch :: ch2 :: rest =>
    if ch = '\\' ∧ ch2 = ',' then noUnescapedComma rest
    else if ch = ',' then false
    else noUnescapedComma (ch2 :: rest)

/-- The number of unescaped commas (separator positions) in a raw value. -/
def unescapedCommaCount : Str → Nat
  | [] => 0
  | [ch] => if ch = ',' then 1 else 0
  | ch :: ch2 :: rest =>
    if ch = '\\' ∧ ch2 = ',' then unescapedCommaCount rest
    else if ch = ',' then unescapedCommaCount (ch2 :: rest) + 1
    else unescapedCommaCount (ch2 :: rest)

/-- The per-alternative element pushed onto `queryList` (index.ts:90-92): the
JS array `searchParam.compiled.map(compiled => typeQueryWithConditions(...))`. -/
def perValueQueries (sp : SearchParam) (alt : Str) : Query :=
  Query.arr (sp.compiled.map fun compiled => typeQueryWithConditions sp compiled alt)

/-- The final join of `searchParamQuery` (index.ts:97-104): a single-element
`queryList` returns `queryList[0]`; otherwise the list is wrapped in
`{bool:{should: queryList}}`. (The preceding `queryList.join()` in the source
discards its result and is a no-op on `queryList`.) -/
def joinQueries : List Query → Query
  | [q] => q
  | qs => Query.boolShould qs

/-- `searchParamQuery` (index.ts:71-105): split the raw value on unescaped
commas, build the per-descriptor query array for each alternative, and join. -/
def searchParamQuery (sp : SearchParam) (searchValue : Str) : Query :=
  joinQueries ((splitSearchValue searchValue).map (perValueQueries sp))

/-- The shapes a raw `queryParams` entry value can take after the router's
query-string parsing: a plain string, an array of such values, or some other
structured value (e.g. an object). -/
inductive ParamValue where
  | str (s : Str)
  | arr (elems : List ParamValue)
  | other

/-- `typeof searchValue === 'string'` for one array element. -/
def ParamValue.isStr : ParamValue → Bool
  | ParamValue.str _ => true
  | _ => false

/-- The string payload of a string-shaped value (unused on other shapes). -/
def ParamValue.strVal : ParamValue → Str
  | ParamValue.str s => s
  | _ => []

/-- The single error kind of the module: `InvalidSearchParameterError`,
carrying its human-readable message. -/
inductive SearchError where
  | invalidSearchParameter (message : Str)
deriving DecidableEq

/-- The ASCII apostrophe used by the error-message templates. -/
def quoteChar : Char := Char.ofNat 39

/-- The message of the normalization error
(index.ts:122): `Invalid search parameter: '<name>'`. -/
def invalidParamMessage (name : Str) : Str :=
  ("Invalid search parameter: ".toList) ++ [quoteChar] ++ name ++ [quoteChar]

/-- The message of the registry-resolution error (index.ts:139):
`Invalid search parameter '<name>' for resource type <resourceType>`. -/
def invalidParamForTypeMessage (name resourceType : Str) : Str :=
  ("Invalid search parameter ".toList) ++ [quoteChar] ++ name ++ [quoteChar]
    ++ (" for resource type ".toList) ++ resourceType

/-- `normalizeQueryParams` (index.ts:107-126): a plain string becomes a
one-element array; an array whose every element is a string passes through
as-is; anything else throws `InvalidSearchParameterError` naming the
parameter. Entries are processed in `Object.entries` order and the first
offending entry raises the error. -/
def normalizeQueryParams : List (Str × ParamValue) → Except SearchError (List (Str × List Str))
  | [] => Except.ok []
  | (searchParameter, searchValue) :: rest =>
    match searchValue with
    | ParamValue.str s =>
        (normalizeQueryParams rest).map fun r => (searchParameter, [s]) :: r
    | ParamValue.arr elems =>
        if elems.all ParamValue.isStr then
          (normalizeQueryParams rest).map fun r =>
            (searchParameter, elems.map ParamValue.strVal) :: r
        else
          Except.error (SearchError.invalidSearchParameter (invalidParamMessage searchParameter))
    | ParamValue.other =>
        Except.error (SearchError.invalidSearchParameter (invalidParamMessage searchParameter))

/-- Modelled from the spec: the registry (`FHIRSearchParametersRegistry`, not
under src/) is consumed only through `getSearchParameter(resourceType, name)`,
returning a definition or `undefined`; it is modelled as a lookup function. -/
def FHIRSearchParametersRegistry := Str → Str → Option SearchParam

/-- A search request: the target resource type and the raw query parameters
(an ordered mapping, as produced by `Object.entries`). -/
structure TypeSearchRequest where
  resourceType : Str
  queryParams : List (Str × ParamValue)

/-- The `flatMap` body of `searchRequestQuery` (index.ts:135-143): resolve each
remaining parameter against the registry (throwing when unresolvable) and emit
one `searchParamQuery` result per value, concatenated in order. -/
def compileParams (reg : FHIRSearchParametersRegistry) (resourceType : Str) :
    List (Str × List Str) → Except SearchError (List Query)
  | [] => Except.ok []
  | (searchParameter, searchValues) :: rest =>
    match reg resourceType searchParameter with
    | none =>
        Except.error (SearchError.invalidSearchParameter
          (invalidParamForTypeMessage searchParameter resourceType))
    | some fhirSearchParam =>
        (compileParams reg resourceType rest).map fun r =>
          searchValues.map (fun v => searchParamQuery fhirSearchParam v) ++ r

/-- `searchRequestQuery` (index.ts:128-144). `NON_SEARCHABLE_PARAMETERS`
(imported from `../constants`, not under src/) is modelled from the spec as a
fixed, externally-supplied list `nonSearchable` of parameter names: normalized
entries whose name is in it are filtered out before registry resolution. -/
def searchRequestQuery (reg : FHIRSearchParametersRegistry) (nonSearchable : List Str)
    (request : TypeSearchRequest) : Except SearchError (List Query) :=
  (normalizeQueryParams request.queryParams).bind fun normalized =>
    compileParams reg request.resourceType
      (normalized.filter fun e => !(nonSearchable.contains e.1))

/-- `buildQueryForAllSearchParameters` (index.ts:147-158): the top-level
`{bool:{filter: additionalFilters, must: searchRequestQuery(...)}}` node. -/
def buildQueryForAllSearchParameters (reg : FHIRSearchParametersRegistry)
    (nonSearchable : List Str) (request : TypeSearchRequest)
    (additionalFilters : List Query) : Except SearchError Query :=
  (searchRequestQuery reg nonSearchable request).map fun must =>
    Query.boolFilterMust additionalFilters must

/-- A raw entry value is "good" exactly when normalization accepts it:
a string, or an array whose every element is a string. -/
def goodValue : ParamValue → Bool
  | ParamValue.str _ => true
  | ParamValue.arr elems => elems.all ParamValue.isStr
  | ParamValue.other => false

/-- A raw entry value is non-empty when it is a string or a non-empty array.
Used to state the non-emptiness invariant on normalized value sequences. -/
def paramValueNonEmpty : ParamValue → Bool
  | ParamValue.str _ => true
  | ParamValue.arr elems => !elems.isEmpty
  | ParamValue.other => false

/-- The ordered string values an accepted entry value normalizes to. -/
def normalizedValues : ParamValue → List Str
  | ParamValue.str s => [s]
  | ParamValue.arr elems => elems.map ParamValue.strVal
  | ParamValue.other => []

/-- A concrete descriptor without a condition, used in concrete instances. -/
def exCsp : CompiledSearchParam := { path := "name".toList, condition := none }

/-- A concrete descriptor carrying a condition, used in concrete instances. -/
def exCondCsp : CompiledSearchParam :=
  { path := "contact.name".toList
    condition := some ("contact.role".toList, "=".toList, "emergency".toList) }

/-- A concrete single-descriptor string search parameter. -/
def exParam : SearchParam :=
  { name := "name".toList, type := SearchParamType.string, compiled := [exCsp] }

/-- A registry resolving only (`Patient`, `name`), to `exParam`. -/
def exRegistry : FHIRSearchParametersRegistry := fun rt p =>
  if rt = "Patient".toList ∧ p = "name".toList then some exParam else none

/-- A registry resolving nothing. -/
def emptyRegistry : FHIRSearchParametersRegistry := fun _ _ => none

/-- A registry agreeing with `exRegistry` except at the name `_count`. -/
def exRegistry2 : FHIRSearchParametersRegistry := fun rt p =>
  if p = "_count".toList then some exParam else exRegistry rt p

/-- A concrete request with one resolvable parameter. -/
def exReq : TypeSearchRequest :=
  { resourceType := "Patient".toList
    queryParams := [("name".toList, ParamValue.str ("Smith".toList))] }

/-- A concrete request with one unresolvable parameter. -/
def exReqFoo : TypeSearchRequest :=
  { resourceType := "Patient".toList
    queryParams := [("foo".toList, ParamValue.str ("x".toList))] }

/-! ## Theorems -/

theorem splitModel_cons_escape (rest seg : Str) :
    splitModel ('\\' :: ',' :: rest) seg = splitModel rest (seg ++ [',']) := by
  simp [splitModel]

theorem splitModel_cons_comma (rest seg : Str) :
    splitModel (',' :: rest) seg = seg :: splitModel rest [] := by
  cases rest with
  | nil => simp [splitModel]
  | cons r rs => simp [splitModel]

theorem splitModel_cons_backslash (rest seg : Str) (h : rest.head? ≠ some ',') :
    splitModel ('\\' :: rest) seg = splitModel rest (seg ++ ['\\']) := by
  cases rest with
  | nil => simp [splitModel]
  | cons r rs =>
    have hr : r ≠ ',' := by
      intro he
      exact h (by simp [he])
    simp [splitModel, hr]

theorem splitModel_cons_other (ch : Char) (rest seg : Str) (h1 : ch ≠ '\\') (h2 : ch ≠ ',') :
    splitModel (ch :: rest) seg = splitModel rest (seg ++ [ch]) := by
  cases rest with
  | nil => simp [splitModel, h2]
  | cons r rs => simp [splitModel, h1, h2]

theorem drop_erase {α : Type} (s : List α) (c : Nat) (h : c < s.length) :
    (s.take c ++ s.drop (c + 1)).drop (c + 1) = s.drop (c + 2) := by
  rw [List.drop_append_eq_append_drop]
  have h1 : (s.take c).length = c := by
    simp [List.length_take]
    omega
  rw [List.drop_eq_nil_of_le (by omega), h1]
  have h2 : c + 1 - c = 1 := by omega
  rw [h2, List.drop_drop]
  simp

theorem dropTake_erase {α : Type} (s : List α) (c l : Nat) (hl : l ≤ c)
    (h1 : c + 1 < s.length) :
    ((s.take c ++ s.drop (c + 1)).drop l).take (c + 1 - l)
      = ((s.drop l).take (c - l)) ++ [s.get ⟨c + 1, h1⟩] := by
  rw [List.drop_append_eq_append_drop]
  have htc : (s.take c).length = c := by
    simp [List.length_take]
    omega
  rw [htc]
  have hl0 : l - c = 0 := by omega
  rw [hl0, List.drop_zero, List.take_append_eq_append_take]
  have hdt : (s.take c).drop l = (s.drop l).take (c - l) := by
    rw [List.drop_take]
  have hdtlen : ((s.take c).drop l).length = c - l := by
    simp [List.length_drop, htc]
  rw [hdtlen]
  have h3 : c + 1 - l - (c - l) = 1 := by omega
  rw [h3, hdt]
  have h5 : ((s.drop l).take (c - l)).length ≤ c + 1 - l := by
    simp [List.length_take]
    omega
  rw [List.take_of_length_le h5]
  congr 1
  have h6 : s.drop (c + 1) = s.get ⟨c + 1, h1⟩ :: s.drop (c + 2) := by
    rw [List.drop_eq_getElem_cons h1]
    simp [List.get_eq_getElem]
  rw [h6]
  simp only [List.take_succ_cons, List.take_zero]

theorem take_seg_succ {α : Type} (s : List α) (c l : Nat) (hl : l ≤ c) (h : c < s.length) :
    (s.drop l).take (c + 1 - l) = (s.drop l).take (c - l) ++ [s.get ⟨c, h⟩] := by
  have h1 : c + 1 - l = (c - l) + 1 := by omega
  rw [h1, List.take_succ]
  congr 1
  have h2 : (s.drop l)[c - l]? = some (s.get ⟨c, h⟩) := by
    rw [List.getElem?_drop]
    have h3 : l + (c - l) = c := by omega
    rw [h3, List.getElem?_eq_getElem h]
    simp [List.get_eq_getElem]
  rw [h2]
  rfl

/-- The mutating scan `splitLoop` computes, from any reachable loop state, the
accumulator followed by the functional model applied to the remaining
characters and the segment in progress. -/
theorem splitLoop_eq_model (s : Str) (c l : Nat) (acc : List Str) :
    l ≤ c → c ≤ s.length →
    splitLoop s c l acc = acc ++ splitModel (s.drop c) ((s.drop l).take (c - l)) := by
  induction s, c, l, acc using splitLoop.induct with
  | case1 s c l acc h h1 h2 ih =>
    intro hl hc
    have hc1 : c + 1 < s.length := by
      rcases List.get?_eq_some.1 h2 with ⟨hlt, _⟩
      exact hlt
    have hcomma : s.get ⟨c + 1, hc1⟩ = ',' := by
      rcases List.get?_eq_some.1 h2 with ⟨hlt, hg⟩
      exact hg
    rw [splitLoop, dif_pos h, if_pos h1, if_pos h2]
    have hlen : c + 1 ≤ (s.take c ++ s.drop (c + 1)).length := by
      simp [List.length_append, List.length_take, List.length_drop]
      omega
    rw [ih (Nat.le_succ_of_le hl) hlen]
    rw [drop_erase s c h, dropTake_erase s c l hl hc1, hcomma]
    have hgc : s[c] = '\\' := by simpa [List.get_eq_getElem] using h1
    have hdc : s.drop c = '\\' :: ',' :: s.drop (c + 2) := by
      rw [List.drop_eq_getElem_cons h, List.drop_eq_getElem_cons hc1, hgc]
      have hgc1 : s[c + 1] = ',' := by simpa [List.get_eq_getElem] using hcomma
      rw [hgc1]
    rw [hdc, splitModel_cons_escape]
  | case2 s c l acc h h1 h2 ih =>
    intro hl hc
    rw [splitLoop, dif_pos h, if_pos h1, if_neg h2]
    rw [ih (Nat.le_succ_of_le hl) (by omega)]
    have hgc : s[c] = '\\' := by simpa [List.get_eq_getElem] using h1
    have hdc : s.drop c = '\\' :: s.drop (c + 1) := by
      rw [List.drop_eq_getElem_cons h, hgc]
    have hhead : (s.drop (c + 1)).head? ≠ some ',' := by
      by_cases hlt : c + 1 < s.length
      · rw [List.drop_eq_getElem_cons hlt]
        simp only [List.head?_cons]
        intro hhd
        apply h2
        have hcv : s[c + 1] = ',' := by simpa using hhd
        rw [List.get?_eq_get hlt]
        simp [List.get_eq_getElem, hcv]
      · rw [List.drop_eq_nil_of_le (by omega)]
        simp
    rw [hdc, splitModel_cons_backslash _ _ hhead]
    rw [take_seg_succ s c l hl h]
    have hget : s.get ⟨c, h⟩ = '\\' := h1
    rw [hget]
  | case3 s c l acc h h1 h2 ih =>
    intro hl hc
    rw [splitLoop, dif_pos h, if_neg h1, if_pos h2]
    rw [ih (Nat.le_refl _) (by omega)]
    have hgc : s[c] = ',' := by simpa [List.get_eq_getElem] using h2
    have hdc : s.drop c = ',' :: s.drop (c + 1) := by
      rw [List.drop_eq_getElem_cons h, hgc]
    rw [hdc, splitModel_cons_comma]
    simp
  | case4 s c l acc h h1 h2 ih =>
    intro hl hc
    rw [splitLoop, dif_pos h, if_neg h1, if_neg h2]
    rw [ih (Nat.le_succ_of_le hl) (by omega)]
    have hgc1 : s[c] ≠ '\\' := by simpa [List.get_eq_getElem] using h1
    have hgc2 : s[c] ≠ ',' := by simpa [List.get_eq_getElem] using h2
    have hdc : s.drop c = s[c] :: s.drop (c + 1) := List.drop_eq_getElem_cons h
    rw [hdc, splitModel_cons_other _ _ _ hgc1 hgc2]
    rw [take_seg_succ s c l hl h]
    simp [List.get_eq_getElem]
  | case5 s c l acc h =>
    intro hl hc
    rw [splitLoop, dif_neg h]
    have hd1 : s.drop c = [] := List.drop_eq_nil_of_le (by omega)
    rw [hd1]
    have hd2 : (s.drop l).take (c - l) = s.drop l := by
      apply List.take_of_length_le
      simp [List.length_drop]
      omega
    rw [hd2]
    simp [splitModel]

/-- The value splitter equals its functional model started with an empty
segment. -/
theorem splitSearchValue_eq_model (s : Str) :
    splitSearchValue s = splitModel s [] := by
  have h := splitLoop_eq_model s 0 0 [] (Nat.le_refl 0) (Nat.zero_le _)
  simpa [splitSearchValue] using h

/-- The splitter emits one more alternative than there are unescaped commas. -/
theorem splitModel_length (s seg : Str) :
    (splitModel s seg).length = unescapedCommaCount s + 1 := by
  induction s, seg using splitModel.induct with
  | case1 seg => simp [splitModel, unescapedCommaCount]
  | case2 seg => simp [splitModel, unescapedCommaCount]
  | case3 ch seg h => simp [splitModel, unescapedCommaCount, h]
  | case4 ch ch2 rest seg h ih => simp [splitModel, unescapedCommaCount, h, ih]
  | case5 ch2 rest seg h ih => simp [splitModel, unescapedCommaCount, h, ih]
  | case6 ch ch2 rest seg h h2 ih => simp [splitModel, unescapedCommaCount, h, h2, ih]

/-- On a value with no unescaped comma the splitter emits exactly one
alternative: the pending segment followed by the single-level unescape of the
remaining input. -/
theorem splitModel_of_no_comma (s seg : Str) :
    noUnescapedComma s = true → splitModel s seg = [seg ++ unescapeValue s] := by
  induction s, seg using splitModel.induct with
  | case1 seg =>
    intro h
    simp [splitModel, unescapeValue]
  | case2 seg =>
    intro h
    simp [noUnescapedComma] at h
  | case3 ch seg h =>
    intro h2
    simp [splitModel, unescapeValue, h]
  | case4 ch ch2 rest seg h ih =>
    intro h2
    simp only [noUnescapedComma, if_pos h] at h2
    simp [splitModel, unescapeValue, h, ih h2]
  | case5 ch2 rest seg h ih =>
    intro h2
    simp [noUnescapedComma, h] at h2
  | case6 ch ch2 rest seg h h2 ih =>
    intro h3
    simp only [noUnescapedComma, if_neg h, if_neg h2] at h3
    simp [splitModel, unescapeValue, h, h2, ih h3]

/-- `searchParamQuery` on a value splitting into a single alternative returns
the per-descriptor query array for that alternative unwrapped. -/
theorem searchParamQuery_single (sp : SearchParam) (v a : Str)
    (h : splitSearchValue v = [a]) :
    searchParamQuery sp v = perValueQueries sp a := by
  simp [searchParamQuery, h, joinQueries]

/-- `searchParamQuery` on a value splitting into two or more alternatives
wraps the per-alternative query arrays in a `bool.should` node. -/
theorem searchParamQuery_multi (sp : SearchParam) (v a1 a2 : Str) (rest : List Str)
    (h : splitSearchValue v = a1 :: a2 :: rest) :
    searchParamQuery sp v
      = Query.boolShould ((a1 :: a2 :: rest).map (perValueQueries sp)) := by
  simp [searchParamQuery, h, joinQueries]

/-- Normalization succeeds exactly entrywise: each output entry keeps its
input's name, the input value was accepted, and the output values are the
input's string values. -/
theorem normalize_ok_shape (qp : List (Str × ParamValue)) :
    ∀ out, normalizeQueryParams qp = Except.ok out →
    List.Forall₂
      (fun i o => i.1 = o.1 ∧ goodValue i.2 = true ∧ o.2 = normalizedValues i.2)
      qp out := by
  induction qp with
  | nil =>
    intro out h
    simp [normalizeQueryParams] at h
    subst h
    exact List.Forall₂.nil
  | cons e rest ih =>
    intro out h
    obtain ⟨name, v⟩ := e
    cases v with
    | str s =>
      cases hr : normalizeQueryParams rest with
      | ok r =>
        simp [normalizeQueryParams, hr, Except.map] at h
        subst h
        exact List.Forall₂.cons (by simp [goodValue, normalizedValues]) (ih r hr)
      | error err =>
        simp [normalizeQueryParams, hr, Except.map] at h
    | arr elems =>
      by_cases hall : elems.all ParamValue.isStr
      · cases hr : normalizeQueryParams rest with
        | ok r =>
          simp [normalizeQueryParams, hall, hr, Except.map] at h
          subst h
          exact List.Forall₂.cons (by simp [goodValue, normalizedValues, hall]) (ih r hr)
        | error err =>
          simp [normalizeQueryParams, hall, hr, Except.map] at h
      · simp [normalizeQueryParams, hall] at h
    | other =>
      simp [normalizeQueryParams] at h

/-- An accepted non-empty entry value normalizes to a non-empty sequence. -/
theorem normalizedValues_ne_nil (v : ParamValue) (h : paramValueNonEmpty v = true) :
    normalizedValues v ≠ [] := by
  cases v with
  | str s => simp [normalizedValues]
  | arr elems =>
    simp [paramValueNonEmpty] at h
    simp [normalizedValues]
    intro he
    simp [he] at h
  | other => simp [paramValueNonEmpty] at h

/-- Normalization of an entry with an accepted value prepends its normalized
values to the normalization of the remaining entries. -/
theorem normalize_cons_good (name : Str) (v : ParamValue) (rest : List (Str × ParamValue))
    (h : goodValue v = true) :
    normalizeQueryParams ((name, v) :: rest)
      = (normalizeQueryParams rest).map fun r => (name, normalizedValues v) :: r := by
  cases v with
  | str s => simp [normalizeQueryParams, normalizedValues]
  | arr elems =>
    have hall : elems.all ParamValue.isStr = true := h
    simp [normalizeQueryParams, normalizedValues, hall]
  | other => simp [goodValue] at h

/-- Normalization distributes over appending of entry lists. -/
theorem normalize_append (l1 l2 : List (Str × ParamValue)) :
    normalizeQueryParams (l1 ++ l2)
      = (normalizeQueryParams l1).bind fun n1 =>
          (normalizeQueryParams l2).map fun n2 => n1 ++ n2 := by
  induction l1 with
  | nil =>
    cases h2 : normalizeQueryParams l2 with
    | ok r => simp [normalizeQueryParams, h2, Except.map, Except.bind]
    | error err => simp [normalizeQueryParams, h2, Except.map, Except.bind]
  | cons e rest ih =>
    obtain ⟨name, v⟩ := e
    by_cases hg : goodValue v = true
    · rw [List.cons_append, normalize_cons_good name v (rest ++ l2) hg, ih,
          normalize_cons_good name v rest hg]
      cases hr : normalizeQueryParams rest with
      | ok r =>
        cases h2 : normalizeQueryParams l2 with
        | ok r2 => simp [Except.map, Except.bind]
        | error err => simp [Except.map, Except.bind]
      | error err => simp [Except.map, Except.bind]
    · cases v with
      | str s => simp [goodValue] at hg
      | arr elems =>
        have hall : elems.all ParamValue.isStr = false := by
          cases hb : elems.all ParamValue.isStr with
          | false => rfl
          | true => exact absurd hb hg
        simp [normalizeQueryParams, hall, Except.bind]
      | other => simp [normalizeQueryParams, Except.bind]

/-- If some entry has a rejected value, normalization fails with
`InvalidSearchParameter` naming one such (the first) offending parameter. -/
theorem normalize_error_of_bad (qp : List (Str × ParamValue)) :
    (∃ p ∈ qp, goodValue p.2 = false) →
    ∃ name v, (name, v) ∈ qp ∧ goodValue v = false ∧
      normalizeQueryParams qp
        = Except.error (SearchError.invalidSearchParameter (invalidParamMessage name)) := by
  induction qp with
  | nil =>
    rintro ⟨p, hp, _⟩
    cases hp
  | cons e rest ih =>
    rintro ⟨p, hp, hbad⟩
    obtain ⟨name, v⟩ := e
    by_cases hg : goodValue v = true
    · have hrest : ∃ q ∈ rest, goodValue q.2 = false := by
        rcases List.mem_cons.1 hp with he | hm
        · subst he
          simp [hg] at hbad
        · exact ⟨p, hm, hbad⟩
      obtain ⟨n2, v2, hmem, hb2, herr⟩ := ih hrest
      refine ⟨n2, v2, List.mem_cons_of_mem _ hmem, hb2, ?_⟩
      rw [normalize_cons_good name v rest hg, herr]
      rfl
    · have hbad0 : goodValue v = false := by
        cases hb : goodValue v with
        | false => rfl
        | true => exact absurd hb hg
      refine ⟨name, v, List.mem_cons_self _ _, hbad0, ?_⟩
      cases v with
      | str s => simp [goodValue] at hbad0
      | arr elems =>
        have hall : elems.all ParamValue.isStr = false := hbad0
        simp [normalizeQueryParams, hall]
      | other => simp [normalizeQueryParams]

/-- If every entry's value is accepted, normalization never throws. -/
theorem normalize_ok_of_all_good (qp : List (Str × ParamValue)) :
    (∀ p ∈ qp, goodValue p.2 = true) →
    ∃ out, normalizeQueryParams qp = Except.ok out := by
  induction qp with
  | nil =>
    intro _
    exact ⟨[], rfl⟩
  | cons e rest ih =>
    intro h
    obtain ⟨name, v⟩ := e
    have hg : goodValue v = true := h (name, v) (List.mem_cons_self _ _)
    obtain ⟨out, hout⟩ := ih fun p hp => h p (List.mem_cons_of_mem _ hp)
    refine ⟨(name, normalizedValues v) :: out, ?_⟩
    rw [normalize_cons_good name v rest hg, hout]
    rfl

/-- The number of compiled queries is the total number of (parameter, value)
pairs handed to the parameter compiler. -/
theorem compileParams_ok_length (reg : FHIRSearchParametersRegistry) (rt : Str) :
    ∀ (entries : List (Str × List Str)) (qs : List Query),
      compileParams reg rt entries = Except.ok qs →
      qs.length = (entries.map fun e => e.2.length).sum := by
  intro entries
  induction entries with
  | nil =>
    intro qs h
    simp [compileParams] at h
    subst h
    simp
  | cons e rest ih =>
    intro qs h
    obtain ⟨name, vals⟩ := e
    cases hr : reg rt name with
    | none => simp [compileParams, hr] at h
    | some sp =>
      cases hc : compileParams reg rt rest with
      | ok r =>
        simp [compileParams, hr, hc, Except.map] at h
        subst h
        simp [ih r hc]
      | error err => simp [compileParams, hr, hc, Except.map] at h

/-- If some entry's parameter cannot be resolved, compilation of the entry
list fails with `InvalidSearchParameter` for one such (the first) parameter,
with the message naming it and the resource type. -/
theorem compileParams_error_of_unresolved (reg : FHIRSearchParametersRegistry) (rt : Str) :
    ∀ entries : List (Str × List Str),
      (∃ e ∈ entries, reg rt e.1 = none) →
      ∃ p, (∃ e ∈ entries, e.1 = p ∧ reg rt e.1 = none) ∧
        compileParams reg rt entries
          = Except.error (SearchError.invalidSearchParameter (invalidParamForTypeMessage p rt)) := by
  intro entries
  induction entries with
  | nil =>
    rintro ⟨e, he, _⟩
    cases he
  | cons ent rest ih =>
    rintro ⟨e, he, hnone⟩
    obtain ⟨name, vals⟩ := ent
    cases hr : reg rt name with
    | none =>
      refine ⟨name, ⟨(name, vals), List.mem_cons_self _ _, rfl, hr⟩, ?_⟩
      simp [compileParams, hr]
    | some sp =>
      have hrest : ∃ e2 ∈ rest, reg rt e2.1 = none := by
        rcases List.mem_cons.1 he with h1 | h2
        · subst h1
          rw [hr] at hnone
          cases hnone
        · exact ⟨e, h2, hnone⟩
      obtain ⟨p, ⟨e2, hm, hep, hen⟩, herr⟩ := ih hrest
      refine ⟨p, ⟨e2, List.mem_cons_of_mem _ hm, hep, hen⟩, ?_⟩
      simp [compileParams, hr, herr, Except.map]

/-- Compilation only consults the registry at the parameter names of its
entry list. -/
theorem compileParams_congr (reg reg2 : FHIRSearchParametersRegistry) (rt : Str) :
    ∀ entries : List (Str × List Str),
      (∀ e ∈ entries, reg rt e.1 = reg2 rt e.1) →
      compileParams reg rt entries = compileParams reg2 rt entries := by
  intro entries
  induction entries with
  | nil =>
    intro _
    rfl
  | cons ent rest ih =>
    intro h
    obtain ⟨name, vals⟩ := ent
    have hh : reg rt name = reg2 rt name := h (name, vals) (List.mem_cons_self _ _)
    have hrest := ih fun e he => h e (List.mem_cons_of_mem _ he)
    cases hr : reg2 rt name with
    | none => simp [compileParams, hh, hr, hrest]
    | some sp => simp [compileParams, hh, hr, hrest]

/-- Concrete evaluation of `searchRequestQuery` on `exReq`. -/
theorem searchRequestQuery_exReq :
    searchRequestQuery exRegistry [] exReq
      = Except.ok [Query.arr [Query.leaf LeafKind.string exCsp ("Smith".toList)]] := by
  have hs : splitSearchValue ("Smith".toList) = ["Smith".toList] := by
    rw [splitSearchValue_eq_model]
    decide
  have hq : searchParamQuery exParam ("Smith".toList)
      = Query.arr [Query.leaf LeafKind.string exCsp ("Smith".toList)] := by
    rw [searchParamQuery_single exParam _ _ hs]
    rfl
  have hreg : exRegistry ("Patient".toList) ("name".toList) = some exParam := by decide
  have h1 : searchRequestQuery exRegistry [] exReq
      = compileParams exRegistry ("Patient".toList) [("name".toList, ["Smith".toList])] := rfl
  rw [h1]
  simp only [compileParams, hreg, hq, Except.map, List.map_cons, List.map_nil,
    List.append_nil]

/-! ## Claim theorems -/

/-- C3: for every string with no unescaped comma the value splitter returns
exactly one alternative, the single-level unescape of the input; splitting
`a,b` yields `["a","b"]`, splitting `a\,b` yields `["a,b"]` (one alternative
with the comma preserved), and splitting `a,` yields `["a",""]` (a trailing
unescaped comma emits a final empty alternative). -/
theorem c3_split_values :
    (∀ s : Str, noUnescapedComma s = true → splitSearchValue s = [unescapeValue s])
    ∧ splitSearchValue ("a,b".toList) = ["a".toList, "b".toList]
    ∧ splitSearchValue ("a\\,b".toList) = ["a,b".toList]
    ∧ splitSearchValue ("a,".toList) = ["a".toList, "".toList] := by
  refine ⟨?_, ?_, ?_, ?_⟩
  · intro s h
    rw [splitSearchValue_eq_model, splitModel_of_no_comma s [] h]
    simp
  · rw [splitSearchValue_eq_model]
    decide
  · rw [splitSearchValue_eq_model]
    decide
  · rw [splitSearchValue_eq_model]
    decide

theorem c3_split_values_witness :
    noUnescapedComma ("x\\,y".toList) = true
    ∧ splitSearchValue ("x\\,y".toList) = [unescapeValue ("x\\,y".toList)] :=
  ⟨by decide, c3_split_values.1 ("x\\,y".toList) (by decide)⟩

/-- C10: on the doubly escaped input `a\\,b` (characters a, backslash,
backslash, comma, b) the splitter returns exactly one alternative with the
characters a, backslash, comma, b: only the backslash immediately preceding
the comma is consumed, the preceding backslash is kept literally, and the
comma is not treated as a separator. -/
theorem c10_double_escape :
    splitSearchValue ("a\\\\,b".toList) = ["a\\,b".toList] := by
  rw [splitSearchValue_eq_model]
  decide

/-- C2: every entry of `queryParams` with a non-empty value normalizes (when
normalization succeeds) to a non-empty sequence of string values, entrywise
and in order; and for every input string the splitter's result has length at
least one. -/
theorem c2_nonempty_sequences :
    (∀ qp out, normalizeQueryParams qp = Except.ok out →
      List.Forall₂ (fun i o => i.1 = o.1 ∧ (paramValueNonEmpty i.2 = true → o.2 ≠ []))
        qp out)
    ∧ (∀ s : Str, 1 ≤ (splitSearchValue s).length) := by
  constructor
  · intro qp out h
    have h2 := normalize_ok_shape qp out h
    refine h2.imp ?_
    intro i o hio
    refine ⟨hio.1, fun hne => ?_⟩
    rw [hio.2.2]
    exact normalizedValues_ne_nil i.2 hne
  · intro s
    rw [splitSearchValue_eq_model, splitModel_length]
    omega

theorem c2_nonempty_sequences_witness :
    normalizeQueryParams [("name".toList, ParamValue.str ("Smith".toList))]
        = Except.ok [("name".toList, ["Smith".toList])]
    ∧ List.Forall₂ (fun i o => i.1 = o.1 ∧ (paramValueNonEmpty i.2 = true → o.2 ≠ []))
        [("name".toList, ParamValue.str ("Smith".toList))]
        [("name".toList, ["Smith".toList])] :=
  ⟨rfl, c2_nonempty_sequences.1 _ _ rfl⟩

/-- C9: on a value with exactly one unescaped comma, `searchParamQuery`
returns a `bool.should` node with exactly two entries, one per alternative in
left-to-right order, each identical to what the single-alternative case
produces for that alternative. -/
theorem c9_or_alternatives (sp : SearchParam) (v : Str)
    (h : unescapedCommaCount v = 1) :
    ∃ a1 a2, splitSearchValue v = [a1, a2]
      ∧ searchParamQuery sp v
          = Query.boolShould [perValueQueries sp a1, perValueQueries sp a2]
      ∧ (∀ w, splitSearchValue w = [a1] → searchParamQuery sp w = perValueQueries sp a1)
      ∧ (∀ w, splitSearchValue w = [a2] → searchParamQuery sp w = perValueQueries sp a2) := by
  have hlen : (splitSearchValue v).length = 2 := by
    rw [splitSearchValue_eq_model, splitModel_length, h]
  obtain ⟨a1, a2, hsplit⟩ : ∃ a1 a2, splitSearchValue v = [a1, a2] := by
    cases hs : splitSearchValue v with
    | nil =>
      rw [hs] at hlen
      simp at hlen
    | cons b1 t =>
      cases t with
      | nil =>
        rw [hs] at hlen
        simp at hlen
      | cons b2 t2 =>
        cases t2 with
        | nil => exact ⟨b1, b2, rfl⟩
        | cons b3 t3 =>
          rw [hs] at hlen
          simp at hlen
  refine ⟨a1, a2, hsplit, ?_, ?_, ?_⟩
  · exact searchParamQuery_multi sp v a1 a2 [] hsplit
  · intro w hw
    exact searchParamQuery_single sp w a1 hw
  · intro w hw
    exact searchParamQuery_single sp w a2 hw

theorem c9_or_alternatives_witness :
    unescapedCommaCount ("a,b".toList) = 1
    ∧ ∃ a1 a2, splitSearchValue ("a,b".toList) = [a1, a2]
      ∧ searchParamQuery exParam ("a,b".toList)
          = Query.boolShould [perValueQueries exParam a1, perValueQueries exParam a2]
      ∧ (∀ w, splitSearchValue w = [a1] → searchParamQuery exParam w = perValueQueries exParam a1)
      ∧ (∀ w, splitSearchValue w = [a2] → searchParamQuery exParam w = perValueQueries exParam a2) :=
  ⟨by decide, c9_or_alternatives exParam ("a,b".toList) (by decide)⟩

/-- C1, counterexample: for a parameter with exactly one compiled descriptor
and the comma-free value `a`, `searchParamQuery` does NOT return the raw
dispatcher output: it returns a one-element JS array wrapping it
(`queryList[0]` is the array pushed at index.ts:90, not its element). -/
theorem c1_counterexample :
    searchParamQuery exParam ("a".toList)
      ≠ typeQueryWithConditions exParam exCsp ("a".toList) := by
  have hs : splitSearchValue ("a".toList) = ["a".toList] := by
    rw [splitSearchValue_eq_model]
    decide
  rw [searchParamQuery_single exParam ("a".toList) ("a".toList) hs]
  simp [perValueQueries, exParam, typeQueryWithConditions, exCsp, typeQuery, stringQuery]

/-- C1, amended: for every search parameter whose registry definition has
exactly one compiled descriptor, and every raw value with no unescaped comma,
`searchParamQuery` returns the one-element array whose sole element is the raw
output of the type dispatcher for that descriptor and the unescaped value —
with no `should` wrapper and no `must` wrapper, but inside the per-alternative
array. -/
theorem c1_single_descriptor_wrapped (sp : SearchParam) (csp : CompiledSearchParam)
    (v : Str) (hc : sp.compiled = [csp]) (hv : noUnescapedComma v = true) :
    searchParamQuery sp v
      = Query.arr [typeQueryWithConditions sp csp (unescapeValue v)] := by
  have hs : splitSearchValue v = [unescapeValue v] := by
    rw [splitSearchValue_eq_model, splitModel_of_no_comma v [] hv]
    simp
  rw [searchParamQuery_single sp v (unescapeValue v) hs]
  simp [perValueQueries, hc]

theorem c1_single_descriptor_wrapped_witness :
    exParam.compiled = [exCsp] ∧ noUnescapedComma ("a".toList) = true
    ∧ searchParamQuery exParam ("a".toList)
        = Query.arr [typeQueryWithConditions exParam exCsp (unescapeValue ("a".toList))] :=
  ⟨rfl, by decide,
    c1_single_descriptor_wrapped exParam exCsp ("a".toList) rfl (by decide)⟩

/-- C6: for every declared parameter type, a compiled descriptor carrying a
condition `(fieldX, _, matchVal)` makes the dispatcher return
`{bool:{must:[baseQuery, {multi_match:{fields:[fieldX, fieldX+".*"],
query: matchVal, lenient: true}}]}}` where `baseQuery` is the constructor
output; without a condition the constructor output is returned unwrapped. -/
theorem c6_condition_wrapper (sp : SearchParam) (csp : CompiledSearchParam) (v : Str) :
    (∀ f op mv, csp.condition = some (f, op, mv) →
      typeQueryWithConditions sp csp v
        = Query.boolMust [typeQuery sp csp v,
            Query.multiMatch [f, f ++ (".*".toList)] mv true])
    ∧ (csp.condition = none → typeQueryWithConditions sp csp v = typeQuery sp csp v) := by
  constructor
  · intro f op mv h
    simp [typeQueryWithConditions, h]
  · intro h
    simp [typeQueryWithConditions, h]

theorem c6_condition_wrapper_witness :
    exCondCsp.condition = some ("contact.role".toList, "=".toList, "emergency".toList)
    ∧ typeQueryWithConditions exParam exCondCsp ("x".toList)
        = Query.boolMust [typeQuery exParam exCondCsp ("x".toList),
            Query.multiMatch ["contact.role".toList, "contact.role".toList ++ (".*".toList)]
              ("emergency".toList) true] :=
  ⟨rfl, (c6_condition_wrapper exParam exCondCsp ("x".toList)).1 _ _ _ rfl⟩

/-- C4: `normalizeQueryParams` maps every string-valued entry to the
one-element sequence of that string and passes every all-string array through
unchanged in order; and it throws `InvalidSearchParameter` naming an offending
parameter if and only if some entry's value is neither a string nor an
all-string array (in particular it never throws when every entry's value is a
string or an all-string array). -/
theorem c4_normalize_contract :
    (∀ qp out, normalizeQueryParams qp = Except.ok out →
      List.Forall₂ (fun i o => i.1 = o.1
        ∧ (∀ s, i.2 = ParamValue.str s → o.2 = [s])
        ∧ (∀ vs, i.2 = ParamValue.arr vs → o.2 = vs.map ParamValue.strVal)) qp out)
    ∧ (∀ qp, (∃ p ∈ qp, goodValue p.2 = false) →
        ∃ name v, (name, v) ∈ qp ∧ goodValue v = false ∧
          normalizeQueryParams qp
            = Except.error (SearchError.invalidSearchParameter (invalidParamMessage name))
          ∧ ∃ pre post, invalidParamMessage name = pre ++ name ++ post)
    ∧ (∀ qp, (∃ msg, normalizeQueryParams qp
          = Except.error (SearchError.invalidSearchParameter msg))
        ↔ ∃ p ∈ qp, goodValue p.2 = false) := by
  refine ⟨?_, ?_, ?_⟩
  · intro qp out h
    refine (normalize_ok_shape qp out h).imp ?_
    intro i o hio
    refine ⟨hio.1, ?_, ?_⟩
    · intro s hsv
      rw [hio.2.2, hsv]
      rfl
    · intro vs hsv
      rw [hio.2.2, hsv]
      rfl
  · intro qp hbad
    obtain ⟨name, v, hm, hb, herr⟩ := normalize_error_of_bad qp hbad
    refine ⟨name, v, hm, hb, herr,
      ("Invalid search parameter: ".toList) ++ [quoteChar], [quoteChar], ?_⟩
    simp [invalidParamMessage]
  · intro qp
    constructor
    · rintro ⟨msg, herr⟩
      by_contra hno
      push_neg at hno
      have hall : ∀ p ∈ qp, goodValue p.2 = true := by
        intro p hp
        cases hb : goodValue p.2 with
        | true => rfl
        | false => exact absurd hb (hno p hp)
      obtain ⟨out, hout⟩ := normalize_ok_of_all_good qp hall
      rw [hout] at herr
      cases herr
    · intro hbad
      obtain ⟨name, v, hm, hb, herr⟩ := normalize_error_of_bad qp hbad
      exact ⟨invalidParamMessage name, herr⟩

theorem c4_normalize_contract_witness :
    normalizeQueryParams
        [("name".toList,
          ParamValue.arr [ParamValue.str ("Smith".toList), ParamValue.str ("Jones".toList)])]
      = Except.ok [("name".toList, ["Smith".toList, "Jones".toList])]
    ∧ List.Forall₂ (fun i o => i.1 = o.1
        ∧ (∀ s, i.2 = ParamValue.str s → o.2 = [s])
        ∧ (∀ vs, i.2 = ParamValue.arr vs → o.2 = vs.map ParamValue.strVal))
        [("name".toList,
          ParamValue.arr [ParamValue.str ("Smith".toList), ParamValue.str ("Jones".toList)])]
        [("name".toList, ["Smith".toList, "Jones".toList])]
    ∧ (∃ p ∈ [("name".toList, ParamValue.other)], goodValue p.2 = false)
    ∧ (∃ name v, (name, v) ∈ [("name".toList, ParamValue.other)] ∧ goodValue v = false ∧
        normalizeQueryParams [("name".toList, ParamValue.other)]
          = Except.error (SearchError.invalidSearchParameter (invalidParamMessage name))
        ∧ ∃ pre post, invalidParamMessage name = pre ++ name ++ post)
    ∧ ((∃ msg, normalizeQueryParams [("name".toList, ParamValue.other)]
          = Except.error (SearchError.invalidSearchParameter msg))
        ↔ ∃ p ∈ [("name".toList, ParamValue.other)], goodValue p.2 = false) :=
  ⟨rfl,
    c4_normalize_contract.1 _ _ rfl,
    ⟨("name".toList, ParamValue.other), List.mem_cons_self _ _, rfl⟩,
    c4_normalize_contract.2.1 [("name".toList, ParamValue.other)]
      ⟨("name".toList, ParamValue.other), List.mem_cons_self _ _, rfl⟩,
    c4_normalize_contract.2.2 [("name".toList, ParamValue.other)]⟩

/-- C5: a request containing a searchable (not non-searchable) parameter that
the registry cannot resolve for the request's resource type makes compilation
fail with `InvalidSearchParameter` whose message mentions both the parameter
name and the resource type, and no query list is produced. -/
theorem c5_unresolvable_param_error (reg : FHIRSearchParametersRegistry)
    (ns : List Str) (req : TypeSearchRequest) (norm : List (Str × List Str))
    (hnorm : normalizeQueryParams req.queryParams = Except.ok norm)
    (hbad : ∃ e ∈ norm, ns.contains e.1 = false ∧ reg req.resourceType e.1 = none) :
    ∃ p, (∃ e ∈ norm, e.1 = p ∧ ns.contains e.1 = false ∧ reg req.resourceType e.1 = none)
      ∧ searchRequestQuery reg ns req
          = Except.error (SearchError.invalidSearchParameter
              (invalidParamForTypeMessage p req.resourceType))
      ∧ ∃ pre mid post, invalidParamForTypeMessage p req.resourceType
          = pre ++ p ++ mid ++ req.resourceType ++ post := by
  obtain ⟨e, hm, hcont, hnone⟩ := hbad
  have hf : e ∈ norm.filter fun x => !(ns.contains x.1) := by
    apply List.mem_filter.2
    exact ⟨hm, by simpa using hcont⟩
  obtain ⟨p, ⟨e2, he2, hep, hen⟩, herr⟩ :=
    compileParams_error_of_unresolved reg req.resourceType
      (norm.filter fun x => !(ns.contains x.1)) ⟨e, hf, hnone⟩
  have he2norm := (List.mem_filter.1 he2).1
  have he2cont : ns.contains e2.1 = false := by
    have h3 := (List.mem_filter.1 he2).2
    simpa using h3
  refine ⟨p, ⟨e2, he2norm, hep, he2cont, hen⟩, ?_, ?_⟩
  · simp only [searchRequestQuery, hnorm, Except.bind]
    exact herr
  · refine ⟨("Invalid search parameter ".toList) ++ [quoteChar],
      [quoteChar] ++ (" for resource type ".toList), [], ?_⟩
    simp [invalidParamForTypeMessage]

theorem c5_unresolvable_param_error_witness :
    normalizeQueryParams exReqFoo.queryParams = Except.ok [("foo".toList, ["x".toList])]
    ∧ (∃ e ∈ [("foo".toList, ["x".toList])], ([] : List Str).contains e.1 = false
        ∧ emptyRegistry exReqFoo.resourceType e.1 = none)
    ∧ ∃ p, (∃ e ∈ [("foo".toList, ["x".toList])], e.1 = p
          ∧ ([] : List Str).contains e.1 = false ∧ emptyRegistry exReqFoo.resourceType e.1 = none)
        ∧ searchRequestQuery emptyRegistry [] exReqFoo
            = Except.error (SearchError.invalidSearchParameter
                (invalidParamForTypeMessage p exReqFoo.resourceType))
        ∧ ∃ pre mid post, invalidParamForTypeMessage p exReqFoo.resourceType
            = pre ++ p ++ mid ++ exReqFoo.resourceType ++ post :=
  ⟨rfl,
    ⟨("foo".toList, ["x".toList]), List.mem_cons_self _ _, rfl, rfl⟩,
    c5_unresolvable_param_error emptyRegistry [] exReqFoo _ rfl
      ⟨("foo".toList, ["x".toList]), List.mem_cons_self _ _, rfl, rfl⟩⟩

/-- C7: the top-level compile output is `{bool:{filter: additionalFilters,
must: [...]}}` with one `must` entry per searchable (parameter, value) pair;
in particular an empty `queryParams` yields
`{bool:{filter: additionalFilters, must: []}}`. -/
theorem c7_top_level_shape :
    (∀ (reg : FHIRSearchParametersRegistry) (ns : List Str) (req : TypeSearchRequest)
        (filters : List Query) (norm : List (Str × List Str)) (must : List Query),
      normalizeQueryParams req.queryParams = Except.ok norm →
      searchRequestQuery reg ns req = Except.ok must →
      buildQueryForAllSearchParameters reg ns req filters
          = Except.ok (Query.boolFilterMust filters must)
        ∧ must.length
            = ((norm.filter fun e => !(ns.contains e.1)).map fun e => e.2.length).sum)
    ∧ (∀ (reg : FHIRSearchParametersRegistry) (ns : List Str) (rt : Str)
        (filters : List Query),
      buildQueryForAllSearchParameters reg ns
          { resourceType := rt, queryParams := [] } filters
        = Except.ok (Query.boolFilterMust filters [])) := by
  constructor
  · intro reg ns req filters norm must hnorm hmust
    constructor
    · simp [buildQueryForAllSearchParameters, hmust, Except.map]
    · have hcp : compileParams reg req.resourceType
          (norm.filter fun e => !(ns.contains e.1)) = Except.ok must := by
        have h2 := hmust
        simp only [searchRequestQuery, hnorm, Except.bind] at h2
        exact h2
      exact compileParams_ok_length reg req.resourceType _ must hcp
  · intro reg ns rt filters
    rfl

theorem c7_top_level_shape_witness :
    normalizeQueryParams exReq.queryParams = Except.ok [("name".toList, ["Smith".toList])]
    ∧ searchRequestQuery exRegistry [] exReq
        = Except.ok [Query.arr [Query.leaf LeafKind.string exCsp ("Smith".toList)]]
    ∧ (buildQueryForAllSearchParameters exRegistry [] exReq []
        = Except.ok (Query.boolFilterMust []
            [Query.arr [Query.leaf LeafKind.string exCsp ("Smith".toList)]])
      ∧ [Query.arr [Query.leaf LeafKind.string exCsp ("Smith".toList)]].length
          = (([("name".toList, ["Smith".toList])].filter
              fun e => !(([] : List Str).contains e.1)).map fun e => e.2.length).sum)
    ∧ buildQueryForAllSearchParameters emptyRegistry []
        { resourceType := "Patient".toList, queryParams := [] } []
        = Except.ok (Query.boolFilterMust [] []) :=
  ⟨rfl, searchRequestQuery_exReq,
    c7_top_level_shape.1 exRegistry [] exReq [] _ _ rfl searchRequestQuery_exReq,
    c7_top_level_shape.2 emptyRegistry [] ("Patient".toList) []⟩

/-- C8: parameter names in the non-searchable set are never resolved against
the registry (the compiled output is unchanged by any modification of the
registry at such names, even removing them entirely) and a well-shaped entry
with such a name contributes nothing to the output: its exclusion is silent,
not an error. -/
theorem c8_non_searchable_excluded :
    (∀ (ns : List Str) (reg reg2 : FHIRSearchParametersRegistry) (req : TypeSearchRequest),
      (∀ rt p, ns.contains p = false → reg rt p = reg2 rt p) →
      searchRequestQuery reg ns req = searchRequestQuery reg2 ns req)
    ∧ (∀ (ns : List Str) (name : Str) (v : ParamValue) (reg : FHIRSearchParametersRegistry)
        (rt : Str) (pre post : List (Str × ParamValue)),
      ns.contains name = true → goodValue v = true →
      searchRequestQuery reg ns { resourceType := rt, queryParams := pre ++ (name, v) :: post }
        = searchRequestQuery reg ns { resourceType := rt, queryParams := pre ++ post }) := by
  constructor
  · intro ns reg reg2 req hag
    cases hnorm : normalizeQueryParams req.queryParams with
    | error err => simp [searchRequestQuery, hnorm, Except.bind]
    | ok norm =>
      simp only [searchRequestQuery, hnorm, Except.bind]
      apply compileParams_congr
      intro e he
      have hcont := (List.mem_filter.1 he).2
      have hc2 : ns.contains e.1 = false := by simpa using hcont
      exact hag req.resourceType e.1 hc2
  · intro ns name v reg rt pre post hns hv
    simp only [searchRequestQuery]
    rw [normalize_append pre ((name, v) :: post), normalize_append pre post,
        normalize_cons_good name v post hv]
    cases hp : normalizeQueryParams pre with
    | error err => simp [Except.bind]
    | ok npre =>
      cases hq : normalizeQueryParams post with
      | error err => simp [Except.bind, Except.map]
      | ok npost =>
        simp only [Except.bind, Except.map]
        congr 1
        have hmem : name ∈ ns := by simpa using hns
        simp [List.filter_append, List.filter_cons, hmem]

theorem c8_non_searchable_excluded_witness :
    (∀ rt p, (["_count".toList] : List Str).contains p = false
      → exRegistry rt p = exRegistry2 rt p)
    ∧ searchRequestQuery exRegistry ["_count".toList] exReq
        = searchRequestQuery exRegistry2 ["_count".toList] exReq
    ∧ (["_count".toList] : List Str).contains ("_count".toList) = true
    ∧ goodValue (ParamValue.str ("10".toList)) = true
    ∧ searchRequestQuery exRegistry ["_count".toList]
        { resourceType := "Patient".toList
          queryParams := [] ++ ("_count".toList, ParamValue.str ("10".toList)) :: [] }
      = searchRequestQuery exRegistry ["_count".toList]
          { resourceType := "Patient".toList, queryParams := [] ++ ([] : List (Str × ParamValue)) } := by
  have hag : ∀ rt p, (["_count".toList] : List Str).contains p = false
      → exRegistry rt p = exRegistry2 rt p := by
    intro rt p h
    have hne : p ≠ "_count".toList := by
      intro he
      rw [he] at h
      exact absurd h (by decide)
    simp only [exRegistry2]
    rw [if_neg hne]
  refine ⟨hag, ?_, by decide, rfl, ?_⟩
  · exact c8_non_searchable_excluded.1 ["_count".toList] exRegistry exRegistry2 exReq hag
  · exact c8_non_searchable_excluded.2 ["_count".toList] ("_count".toList)
      (ParamValue.str ("10".toList)) exRegistry ("Patient".toList) [] [] (by decide) rfl

end FhirWorksSearch
